import Mathlib

/-!
# Verification of the GCE service-discovery core (`main.go`)

A shallow embedding of the discovery-and-reconciliation loop of
`prometheus_gce_sd`: tag filtering, instance-to-target mapping, the
target-set differ, the per-cycle project memoization in `DiscoverTargets`,
the output-file writer, and the trigger loop bookkeeping.

Modelling conventions:
* Go strings are Lean `String`; Go string comparison (`<` on UTF-8 bytes)
  is modelled by a lexicographic comparison on the code-point list
  (`lexLe`), which orders UTF-8 strings identically to byte order.
  String operations are written structurally on `String.data` so that
  every definition evaluates by kernel reduction.
* Go `map[string]string` values (target labels) are association lists;
  `yaml.v2` serializes Go maps with keys sorted, which the encoder below
  reproduces via `sortLabels`.
* Nil Go pointers are `Option`: an entry of `Instance.networkInterfaces`
  or of an instance list may be `none`.
* Fallible Go functions returning `(T, error)` become `Except String T`;
  error strings are abbreviations of the `errors.Wrap` messages.
* `sort.Sort` with the `discoveryTargets.Less` comparator is modelled by
  insertion sort over the induced non-strict order (a sort that agrees
  with Go for the list sizes used in the statements below; all theorems
  about equal results only use that the model is a sorting function).
-/

namespace GceSd

/-- Lexicographic comparison of code-point lists: `lexLe a b` is true iff
the string with data `a` is less than or equal to the string with data `b`
in Go byte order. -/
def lexLe : List Char → List Char → Bool
  | [], _ => true
  | _ :: _, [] => false
  | a :: as, b :: bs =>
    if a.toNat < b.toNat then true
    else if b.toNat < a.toNat then false
    else lexLe as bs

/-- A GCE network interface; `networkIP` is the field `NetworkIP`. -/
structure NetworkInterface where
  networkIP : String
deriving DecidableEq

/-- A GCE compute instance (the fields of `compute.Instance` that the
program reads). `tags` is `Instance.Tags.Items`; an entry of
`networkInterfaces` is `none` when the Go slice holds a nil pointer. -/
structure Instance where
  name : String
  zone : String
  machineType : String
  tags : List String
  networkInterfaces : List (Option NetworkInterface)
deriving DecidableEq

/-- One validated discovery rule (`SearchConfig` in `main.go`). -/
structure SearchConfig where
  job : String
  tags : List String
  project : String
  ports : List Int
deriving DecidableEq

/-- One scrape target (`DiscoveryTarget` in `main.go`): an endpoint list
and a label map, the latter modelled as an association list. -/
structure DiscoveryTarget where
  targets : List String
  labels : List (String × String)
deriving DecidableEq

/-- `tagsMatch` (main.go 243-257): every search tag occurs verbatim among
the instance tags. -/
def tagsMatch (searchTags instanceTags : List String) : Bool :=
  searchTags.all fun st => instanceTags.any fun it => st == it

/-- Splitting a character list on a separator, mirroring Go
`strings.Split` with a one-character separator. -/
def splitOnSep (sep : Char) : List Char → List (List Char)
  | [] => [[]]
  | c :: cs =>
    match splitOnSep sep cs with
    | [] => [[c]]
    | r :: rs => if c = sep then [] :: r :: rs else (c :: r) :: rs

/-- `parseResource` (main.go 259-262): the final `/`-separated segment of
a resource URI. -/
def parseResource (resource : String) : String :=
  String.mk ((splitOnSep '/' resource.data).getLastD [])

/-- `formatTag` (main.go 264-266): replace every `-` by `_`, then
lower-case (ASCII case mapping, as all GCE tags are ASCII). This function
is defined in `main.go` but is never called there. -/
def formatTag (tag : String) : String :=
  String.mk ((tag.data.map fun c => if c = '-' then '_' else c).map Char.toLower)

/-- `findInstanceIP` (main.go 268-277): the `NetworkIP` of the first
non-nil network interface, or an error if none exists. -/
def findInstanceIPAux : List (Option NetworkInterface) → Except String String
  | [] => .error "No non nil interfaces found"
  | none :: rest => findInstanceIPAux rest
  | some iface :: _ => .ok iface.networkIP

def findInstanceIP (inst : Instance) : Except String String :=
  findInstanceIPAux inst.networkInterfaces

/-- `strings.Join(items, ",")`. -/
def joinComma : List String → String
  | [] => ""
  | [s] => s
  | s :: rest => s ++ "," ++ joinComma rest

/-- `InstanceToTargets` (main.go 181-202): one target per configured
port, each with the single endpoint `ip:port` and the label map built in
the source, with the tag label holding the raw comma-joined tag list
wrapped in commas. -/
def InstanceToTargets (inst : Instance) (config : SearchConfig) :
    Except String (List DiscoveryTarget) :=
  match findInstanceIP inst with
  | .error e => .error ("Could not find ip for instance: " ++ e)
  | .ok ip =>
    .ok (config.ports.map fun port =>
      { targets := [ip ++ ":" ++ toString port]
        labels := [
          ("job", config.job),
          ("__meta_gce_instance_tags", "," ++ joinComma inst.tags ++ ","),
          ("__meta_gce_instance_zone", parseResource inst.zone),
          ("__meta_gce_instance_type", parseResource inst.machineType),
          ("__meta_gce_instance_project", config.project),
          ("__meta_gce_instance_name", inst.name)] })

/-- `DiscoverComputeByTags` (main.go 204-217): drop nil entries and keep
the instances whose tags match. (The Go version also returns an always
nil error.) -/
def DiscoverComputeByTags (allInstances : List (Option Instance))
    (searchTags : List String) : List Instance :=
  allInstances.filterMap fun oi =>
    match oi with
    | none => none
    | some i => if tagsMatch searchTags i.tags then some i else none

/-- The sort key of `discoveryTargets.Less` (main.go 324): the first
endpoint string, `dt[i].Targets[0]`. The Go comparator indexes position 0
unconditionally; the model totalizes it with the empty-string default and
`lessIndexInBounds` below records when the Go indexing is in bounds. -/
def targetKey (t : DiscoveryTarget) : String := t.targets.headD ""

/-- Whether the index 0 used by `discoveryTargets.Less` is in bounds for
this target. -/
def lessIndexInBounds (t : DiscoveryTarget) : Prop := 0 < t.targets.length

/-- The non-strict order induced by `discoveryTargets.Less`: a sorted
result of `sort.Sort` is exactly one that is pairwise `targetLe`. -/
def targetLe (a b : DiscoveryTarget) : Prop :=
  lexLe (targetKey a).data (targetKey b).data = true

instance : DecidableRel targetLe := fun _ _ => instDecidableEqBool _ _

/-- Model of `sort.Sort(discoveryTargets(ts))` (main.go 280-282, 308-313). -/
def sortTargets (ts : List DiscoveryTarget) : List DiscoveryTarget :=
  List.insertionSort targetLe ts

/-- Order on label entries by key, modelling that `yaml.v2` serializes a
Go map with its keys sorted. -/
def labelLe (p q : String × String) : Prop := lexLe p.1.data q.1.data = true

instance : DecidableRel labelLe := fun _ _ => instDecidableEqBool _ _

def sortLabels (labels : List (String × String)) : List (String × String) :=
  List.insertionSort labelLe labels

/-- `yaml.Marshal` of one target: endpoints in list order, then the label
map with keys sorted (the layout `yaml.v2` produces, abbreviated but
injective on the data that can occur). -/
def encodeTarget (t : DiscoveryTarget) : String :=
  "- targets:\n" ++ String.join (t.targets.map fun e => "  - " ++ e ++ "\n") ++
    "  labels:\n" ++
    String.join ((sortLabels t.labels).map fun p => "    " ++ p.1 ++ ": " ++ p.2 ++ "\n")

/-- `yaml.Marshal` of a target list: concatenation in list order. -/
def encodeTargets (ts : List DiscoveryTarget) : String :=
  String.join (ts.map encodeTarget)

/-- `targetsDifferent` (main.go 307-319): sort both sets with the
`discoveryTargets.Less` comparator, marshal each, and report whether the
bytes differ. -/
def targetsDifferent (old new : List DiscoveryTarget) : Bool :=
  !(encodeTargets (sortTargets old) == encodeTargets (sortTargets new))

/-- The outcome of the file-system steps inside `WriteTargets`:
`os.Create` may fail (file untouched), the buffered write/flush may fail
after `k` bytes reached the file, or everything may succeed. -/
inductive WriteOutcome where
  | createFail
  | flushFail (bytesWritten : Nat)
  | ok
deriving DecidableEq

/-- `WriteTargets` (main.go 279-305) acting on the output file, whose
contents are `none` when the file does not exist. The function sorts the
targets, marshals them, `os.Create`s the target file — which truncates an
existing file in place — and writes the bytes through a buffered writer.
Returns the new file contents and whether the call succeeded.
(`yaml.Marshal` of these types cannot fail, so that branch is absent.) -/
def WriteTargets (targets : List DiscoveryTarget) (file : Option String)
    (o : WriteOutcome) : Option String × Bool :=
  match o with
  | .createFail => (file, false)
  | .flushFail k =>
    (some (String.mk ((encodeTargets (sortTargets targets)).data.take k)), false)
  | .ok => (some (encodeTargets (sortTargets targets)), true)

/-- The state the `loop` closure in `main` reads and writes: the
`currentTargets` variable and the output file contents. -/
structure LoopState where
  currentTargets : List DiscoveryTarget
  file : Option String
deriving DecidableEq

/-- One run of the `loop` closure (main.go 380-408), parametrized by the
cycle inputs: whether the tick was forced, the result of
`DiscoverTargets`, and the file-system outcome of the write. Returns the
new state, the error returned by `loop` (`none` on success), and whether
`WriteTargets` was invoked. The write is skipped exactly when the cycle
is not forced and `targetsDifferent` reports no change. -/
def loop (force : Bool) (discovered : Except String (List DiscoveryTarget))
    (wo : WriteOutcome) (st : LoopState) : LoopState × Option String × Bool :=
  match discovered with
  | .error e => (st, some ("Could not discover targets: " ++ e), false)
  | .ok newTargets =>
    if !force && !(targetsDifferent newTargets st.currentTargets) then
      (st, none, false)
    else
      match WriteTargets newTargets st.file wo with
      | (file', true) => ({ currentTargets := newTargets, file := file' }, none, true)
      | (file', false) => ({ st with file := file' }, some "Could not write targets", true)

/-- The counter update in `main` (main.go 410-418): the pair is
(success count, failure count); `loop` returning an error increments the
failure counter, anything else the success counter. -/
def syncResultInc (err : Option String) (c : Nat × Nat) : Nat × Nat :=
  match err with
  | none => (c.1 + 1, c.2)
  | some _ => (c.1, c.2 + 1)

/-- The per-config inner loop of `DiscoverTargets` (main.go 160-166):
convert each instance, aborting with an error as soon as one instance
fails to convert. -/
def instancesToTargets (config : SearchConfig) :
    List Instance → Except String (List DiscoveryTarget)
  | [] => .ok []
  | i :: rest =>
    match InstanceToTargets i config with
    | .error e => .error ("Failed to convert instance to a discovery target: " ++ e)
    | .ok ts =>
      match instancesToTargets config rest with
      | .error e => .error e
      | .ok more => .ok (ts ++ more)

/-- The body of one iteration of the config loop in `DiscoverTargets`
once the instance list for the project is at hand: filter by tags,
convert every instance (aborting the cycle on a conversion error), and
append the remaining work. `fetched` is the fetch-trace contribution of
this iteration ( `[project]` on a cache miss, `[]` on a hit). -/
def discoverWithInstances (config : SearchConfig) (allInstances : List (Option Instance))
    (restResult : Except String (List DiscoveryTarget) × List String)
    (fetched : List String) : Except String (List DiscoveryTarget) × List String :=
  match instancesToTargets config (DiscoverComputeByTags allInstances config.tags) with
  | .error e => (.error e, fetched)
  | .ok ts =>
    match restResult with
    | (.error e, tr) => (.error e, fetched ++ tr)
    | (.ok more, tr) => (.ok (ts ++ more), fetched ++ tr)

/-- `DiscoverTargets` (main.go 138-179), parametrized by the inventory
fetch `listAllInstances` and threading the per-cycle cache
`instancesByProject` as an association list. The second component is the
trace of projects for which the fetch was actually invoked, in call
order. -/
def DiscoverTargetsAux (fetch : String → Except String (List (Option Instance))) :
    List SearchConfig → List (String × List (Option Instance)) →
      Except String (List DiscoveryTarget) × List String
  | [], _ => (.ok [], [])
  | config :: rest, cache =>
    match List.lookup config.project cache with
    | some allInstances =>
      discoverWithInstances config allInstances (DiscoverTargetsAux fetch rest cache) []
    | none =>
      match fetch config.project with
      | .error e =>
        (.error ("Failed to list instances in " ++ config.project ++ ": " ++ e),
          [config.project])
      | .ok allInstances =>
        discoverWithInstances config allInstances
          (DiscoverTargetsAux fetch rest ((config.project, allInstances) :: cache))
          [config.project]

/-- `DiscoverTargets` proper: run with an empty per-cycle cache. -/
def DiscoverTargets (fetch : String → Except String (List (Option Instance)))
    (searchConfigs : List SearchConfig) : Except String (List DiscoveryTarget) :=
  (DiscoverTargetsAux fetch searchConfigs []).1

/-- The projects for which `DiscoverTargets` invoked the inventory fetch,
in call order. -/
def DiscoverTargetsTrace (fetch : String → Except String (List (Option Instance)))
    (searchConfigs : List SearchConfig) : List String :=
  (DiscoverTargetsAux fetch searchConfigs []).2

/-- One iteration of the cache-free reference version. -/
def noCacheStep (config : SearchConfig) (allInstances : List (Option Instance))
    (restResult : Except String (List DiscoveryTarget)) :
    Except String (List DiscoveryTarget) :=
  match instancesToTargets config (DiscoverComputeByTags allInstances config.tags) with
  | .error e => .error e
  | .ok ts =>
    match restResult with
    | .error e => .error e
    | .ok more => .ok (ts ++ more)

/-- Cache-free reference version of `DiscoverTargets`: every rule is
evaluated directly against `fetch` of its own project. Used to state that
the memoized version evaluates every rule against the single fetched
instance list of its project. -/
def DiscoverTargetsNoCache (fetch : String → Except String (List (Option Instance))) :
    List SearchConfig → Except String (List DiscoveryTarget)
  | [] => .ok []
  | config :: rest =>
    match fetch config.project with
    | .error e => .error ("Failed to list instances in " ++ config.project ++ ": " ++ e)
    | .ok allInstances =>
      noCacheStep config allInstances (DiscoverTargetsNoCache fetch rest)

/-- Validity of the per-cycle cache: every entry records exactly what the
fetch returns for that project. -/
def cacheValid (fetch : String → Except String (List (Option Instance)))
    (cache : List (String × List (Option Instance))) : Prop :=
  ∀ p v, List.lookup p cache = some v → fetch p = .ok v

theorem lexLe_total : ∀ (a b : List Char), lexLe a b = true ∨ lexLe b a = true
  | [], _ => Or.inl rfl
  | _ :: _, [] => Or.inr rfl
  | a :: as, b :: bs => by
    by_cases h1 : a.toNat < b.toNat
    · left; simp [lexLe, h1]
    · by_cases h2 : b.toNat < a.toNat
      · right; simp [lexLe, h1, h2]
      · rcases lexLe_total as bs with h | h
        · left; simp [lexLe, h1, h2, h]
        · right; simp [lexLe, h1, h2, h]

theorem lexLe_cons (a b : Char) (as bs : List Char) :
    lexLe (a :: as) (b :: bs) = true ↔
      a.toNat < b.toNat ∨ (a.toNat = b.toNat ∧ lexLe as bs = true) := by
  by_cases h1 : a.toNat < b.toNat
  · simp [lexLe, h1]
  · by_cases h2 : b.toNat < a.toNat
    · simp only [lexLe]
      rw [if_neg h1, if_pos h2]
      constructor
      · intro h; exact absurd h (by simp)
      · intro h; exfalso; rcases h with h | ⟨h, _⟩ <;> omega
    · have he : a.toNat = b.toNat := by omega
      simp [lexLe, h1, h2, he]

theorem lexLe_trans :
    ∀ (a b c : List Char), lexLe a b = true → lexLe b c = true → lexLe a c = true
  | [], _, _, _, _ => rfl
  | _ :: _, [], _, hab, _ => by simp [lexLe] at hab
  | _ :: _, _ :: _, [], _, hbc => by simp [lexLe] at hbc
  | a :: as, b :: bs, c :: cs, hab, hbc => by
    rw [lexLe_cons] at hab hbc ⊢
    rcases hab with h1 | ⟨h1, h1'⟩
    · rcases hbc with h2 | ⟨h2, _⟩
      · left; omega
      · left; omega
    · rcases hbc with h2 | ⟨h2, h2'⟩
      · left; omega
      · right
        exact ⟨by omega, lexLe_trans as bs cs h1' h2'⟩

theorem char_eq_of_toNat_eq {a b : Char} (h : a.toNat = b.toNat) : a = b :=
  Char.eq_of_val_eq (UInt32.eq_of_toBitVec_eq (BitVec.eq_of_toNat_eq h))

theorem lexLe_antisymm :
    ∀ (a b : List Char), lexLe a b = true → lexLe b a = true → a = b
  | [], [], _, _ => rfl
  | [], _ :: _, _, hba => by simp [lexLe] at hba
  | _ :: _, [], hab, _ => by simp [lexLe] at hab
  | a :: as, b :: bs, hab, hba => by
    rw [lexLe_cons] at hab hba
    rcases hab with h1 | ⟨h1, h1'⟩
    · rcases hba with h2 | ⟨h2, _⟩ <;> omega
    · rcases hba with h2 | ⟨h2, h2'⟩
      · omega
      · have : a = b := char_eq_of_toNat_eq h1
        rw [this, lexLe_antisymm as bs h1' h2']

theorem string_data_eq {s t : String} (h : s.data = t.data) : s = t :=
  congrArg String.mk h

instance : IsTotal DiscoveryTarget targetLe :=
  ⟨fun a b => lexLe_total (targetKey a).data (targetKey b).data⟩

instance : IsTrans DiscoveryTarget targetLe :=
  ⟨fun a b c => lexLe_trans (targetKey a).data (targetKey b).data (targetKey c).data⟩

theorem targetLe_antisymm_key {a b : DiscoveryTarget}
    (hab : targetLe a b) (hba : targetLe b a) : targetKey a = targetKey b :=
  string_data_eq (lexLe_antisymm _ _ hab hba)

/-- A sorted list of targets is determined by its multiset of elements
once the sort keys are pairwise distinct: the differ is therefore
order-invariant exactly on key-distinct sets. -/
theorem sorted_perm_eq_of_nodup_keys :
    ∀ (l₁ l₂ : List DiscoveryTarget), l₁.Perm l₂ →
      l₁.Sorted targetLe → l₂.Sorted targetLe →
      (l₁.map targetKey).Nodup → l₁ = l₂
  | [], l₂, p, _, _, _ => p.nil_eq
  | a :: t₁, [], p, _, _, _ => absurd p.eq_nil (by simp)
  | a :: t₁, b :: t₂, p, s₁, s₂, nd => by
    have hab : a = b := by
      have hmem_a : a ∈ b :: t₂ := p.mem_iff.mp (List.mem_cons_self a t₁)
      have hmem_b : b ∈ a :: t₁ := p.mem_iff.mpr (List.mem_cons_self b t₂)
      rcases List.mem_cons.mp hmem_a with h | ha₂
      · exact h
      rcases List.mem_cons.mp hmem_b with h | hb₁
      · exact h.symm
      have h1 : targetLe a b := List.rel_of_sorted_cons s₁ b hb₁
      have h2 : targetLe b a := List.rel_of_sorted_cons s₂ a ha₂
      have hk : targetKey a = targetKey b := targetLe_antisymm_key h1 h2
      exfalso
      have : targetKey a ∈ t₁.map targetKey :=
        hk ▸ List.mem_map_of_mem targetKey hb₁
      exact (List.nodup_cons.mp nd).1 this
    subst hab
    have pt : t₁.Perm t₂ := p.cons_inv
    rw [sorted_perm_eq_of_nodup_keys t₁ t₂ pt s₁.of_cons s₂.of_cons
      (List.nodup_cons.mp nd).2]

theorem lookup_cons_iff {β : Type} {p a : String} {v : β} {c : List (String × β)} :
    List.lookup p ((a, v) :: c) = none ↔ p ≠ a ∧ List.lookup p c = none := by
  by_cases h : p = a
  · subst h
    simp [List.lookup]
  · have hb : (p == a) = false := by simpa using h
    simp [List.lookup, hb, h]

theorem lookup_cons_self {β : Type} {a : String} {v : β} {c : List (String × β)} :
    List.lookup a ((a, v) :: c) = some v := by
  simp [List.lookup]

theorem findInstanceIPAux_error_iff (l : List (Option NetworkInterface)) :
    (∃ e, findInstanceIPAux l = .error e) ↔ ∀ x ∈ l, x = none := by
  induction l with
  | nil => simp [findInstanceIPAux]
  | cons x rest ih =>
    cases x with
    | none => simpa [findInstanceIPAux] using ih
    | some iface => simp [findInstanceIPAux]

theorem findInstanceIPAux_ok_first :
    ∀ (l : List (Option NetworkInterface)) (ip : String), findInstanceIPAux l = .ok ip →
      ∃ pre iface post, l = pre ++ some iface :: post ∧ (∀ x ∈ pre, x = none) ∧
        ip = iface.networkIP
  | [], ip, h => by simp [findInstanceIPAux] at h
  | none :: rest, ip, h => by
    obtain ⟨pre, iface, post, hsplit, hpre, hip⟩ :=
      findInstanceIPAux_ok_first rest ip (by simpa [findInstanceIPAux] using h)
    exact ⟨none :: pre, iface, post, by simp [hsplit], by simpa using hpre, hip⟩
  | some iface :: rest, ip, h => by
    refine ⟨[], iface, rest, by simp, by simp, ?_⟩
    simpa [findInstanceIPAux] using h.symm

theorem findInstanceIPAux_first_ok :
    ∀ (pre : List (Option NetworkInterface)) (iface : NetworkInterface)
      (post : List (Option NetworkInterface)), (∀ x ∈ pre, x = none) →
      findInstanceIPAux (pre ++ some iface :: post) = .ok iface.networkIP
  | [], _, _, _ => rfl
  | none :: pre, iface, post, h =>
    findInstanceIPAux_first_ok pre iface post (by simpa using h)
  | some y :: pre, iface, post, h => by simp at h

theorem instancesToTargets_error_of_mem (config : SearchConfig) :
    ∀ (l : List Instance) (i : Instance), i ∈ l →
      (∃ e, InstanceToTargets i config = .error e) →
      ∃ e, instancesToTargets config l = .error e := by
  intro l
  induction l with
  | nil => intro i h; simp at h
  | cons j rest ih =>
    intro i hmem ⟨e, herr⟩
    rcases List.mem_cons.mp hmem with rfl | htail
    · exact ⟨"Failed to convert instance to a discovery target: " ++ e,
        by simp [instancesToTargets, herr]⟩
    · cases hj : InstanceToTargets j config with
      | error e2 => exact ⟨"Failed to convert instance to a discovery target: " ++ e2,
          by simp [instancesToTargets, hj]⟩
      | ok ts =>
        obtain ⟨e3, h3⟩ := ih i htail ⟨e, herr⟩
        exact ⟨e3, by simp [instancesToTargets, hj, h3]⟩

theorem discoverWithInstances_fst (config : SearchConfig)
    (v : List (Option Instance))
    (pr : Except String (List DiscoveryTarget) × List String) (fetched : List String) :
    (discoverWithInstances config v pr fetched).1 = noCacheStep config v pr.1 := by
  unfold discoverWithInstances noCacheStep
  generalize instancesToTargets config (DiscoverComputeByTags v config.tags) = r
  cases r with
  | error e => rfl
  | ok ts =>
    match pr with
    | (.error e, tr) => rfl
    | (.ok more, tr) => rfl

theorem discoverWithInstances_snd (config : SearchConfig)
    (v : List (Option Instance))
    (pr : Except String (List DiscoveryTarget) × List String) (fetched : List String) :
    (discoverWithInstances config v pr fetched).2 = fetched ∨
      (discoverWithInstances config v pr fetched).2 = fetched ++ pr.2 := by
  unfold discoverWithInstances
  generalize instancesToTargets config (DiscoverComputeByTags v config.tags) = r
  cases r with
  | error e => exact Or.inl rfl
  | ok ts =>
    match pr with
    | (.error e, tr) => exact Or.inr rfl
    | (.ok more, tr) => exact Or.inr rfl

theorem discoverWithInstances_ok (config : SearchConfig)
    (v : List (Option Instance))
    (pr : Except String (List DiscoveryTarget) × List String) (fetched : List String)
    (ts : List DiscoveryTarget)
    (h : (discoverWithInstances config v pr fetched).1 = .ok ts) :
    (discoverWithInstances config v pr fetched).2 = fetched ++ pr.2 ∧
      ∃ ms, pr.1 = .ok ms := by
  unfold discoverWithInstances at h ⊢
  generalize hi : instancesToTargets config (DiscoverComputeByTags v config.tags) = r at h ⊢
  cases r with
  | error e => simp at h
  | ok ts2 =>
    match pr, h with
    | (.error e, tr), h => simp at h
    | (.ok more, tr), h => exact ⟨rfl, more, rfl⟩

theorem DiscoverTargetsAux_eq_noCache
    (fetch : String → Except String (List (Option Instance))) :
    ∀ (configs : List SearchConfig) (cache), cacheValid fetch cache →
      (DiscoverTargetsAux fetch configs cache).1 = DiscoverTargetsNoCache fetch configs := by
  intro configs
  induction configs with
  | nil => intro cache _; rfl
  | cons config rest ih =>
    intro cache hvalid
    simp only [DiscoverTargetsAux, DiscoverTargetsNoCache]
    cases hcl : List.lookup config.project cache with
    | some v =>
      have hf : fetch config.project = .ok v := hvalid _ _ hcl
      rw [hf, discoverWithInstances_fst, ih cache hvalid]
    | none =>
      cases hf : fetch config.project with
      | error e => rfl
      | ok v =>
        have hvalid2 : cacheValid fetch ((config.project, v) :: cache) := by
          intro p w hw
          by_cases hp : p = config.project
          · subst hp
            rw [lookup_cons_self] at hw
            cases hw
            exact hf
          · have hlk : List.lookup p cache = some w := by
              simpa [List.lookup, show (p == config.project) = false by
                simpa using hp] using hw
            exact hvalid _ _ hlk
        rw [discoverWithInstances_fst, ih _ hvalid2]

theorem DiscoverTargetsAux_cons_hit
    (fetch : String → Except String (List (Option Instance)))
    (config : SearchConfig) (rest : List SearchConfig)
    (cache : List (String × List (Option Instance))) (v : List (Option Instance))
    (hcl : List.lookup config.project cache = some v) :
    DiscoverTargetsAux fetch (config :: rest) cache =
      discoverWithInstances config v (DiscoverTargetsAux fetch rest cache) [] := by
  simp [DiscoverTargetsAux, hcl]

theorem DiscoverTargetsAux_cons_fetchFail
    (fetch : String → Except String (List (Option Instance)))
    (config : SearchConfig) (rest : List SearchConfig)
    (cache : List (String × List (Option Instance))) (e : String)
    (hcl : List.lookup config.project cache = none)
    (hf : fetch config.project = .error e) :
    DiscoverTargetsAux fetch (config :: rest) cache =
      (.error ("Failed to list instances in " ++ config.project ++ ": " ++ e),
        [config.project]) := by
  simp [DiscoverTargetsAux, hcl, hf]

theorem DiscoverTargetsAux_cons_miss
    (fetch : String → Except String (List (Option Instance)))
    (config : SearchConfig) (rest : List SearchConfig)
    (cache : List (String × List (Option Instance))) (v : List (Option Instance))
    (hcl : List.lookup config.project cache = none)
    (hf : fetch config.project = .ok v) :
    DiscoverTargetsAux fetch (config :: rest) cache =
      discoverWithInstances config v
        (DiscoverTargetsAux fetch rest ((config.project, v) :: cache))
        [config.project] := by
  simp [DiscoverTargetsAux, hcl, hf]

theorem DiscoverTargetsAux_trace
    (fetch : String → Except String (List (Option Instance))) :
    ∀ (configs : List SearchConfig) (cache),
      (∀ p ∈ (DiscoverTargetsAux fetch configs cache).2, List.lookup p cache = none) ∧
      (DiscoverTargetsAux fetch configs cache).2.Nodup ∧
      ((∃ ts, (DiscoverTargetsAux fetch configs cache).1 = Except.ok ts) →
        ∀ p, p ∈ (DiscoverTargetsAux fetch configs cache).2 ↔
          (p ∈ configs.map SearchConfig.project ∧ List.lookup p cache = none)) := by
  intro configs
  induction configs with
  | nil =>
    intro cache
    refine ⟨by simp [DiscoverTargetsAux], by simp [DiscoverTargetsAux], ?_⟩
    intro _ p
    simp [DiscoverTargetsAux]
  | cons config rest ih =>
    intro cache
    cases hcl : List.lookup config.project cache with
    | some v =>
      rw [DiscoverTargetsAux_cons_hit fetch config rest cache v hcl]
      obtain ⟨ih1, ih2, ih3⟩ := ih cache
      have hsplit := discoverWithInstances_snd config v (DiscoverTargetsAux fetch rest cache) []
      refine ⟨?_, ?_, ?_⟩
      · intro p hp
        rcases hsplit with hs | hs
        · rw [hs] at hp; simp at hp
        · rw [hs] at hp
          simp only [List.nil_append] at hp
          exact ih1 p hp
      · rcases hsplit with hs | hs
        · rw [hs]; exact List.nodup_nil
        · rw [hs]
          simpa using ih2
      · rintro ⟨ts, hok⟩ p
        obtain ⟨hsnd, ms, hms⟩ :=
          discoverWithInstances_ok config v (DiscoverTargetsAux fetch rest cache) [] ts hok
        rw [hsnd]
        simp only [List.nil_append, List.map_cons, List.mem_cons]
        constructor
        · intro hp
          have hnone := ih1 p hp
          have hmem := ((ih3 ⟨ms, hms⟩ p).mp hp).1
          exact ⟨Or.inr hmem, hnone⟩
        · rintro ⟨hmem, hnone⟩
          rcases hmem with rfl | hmem
          · rw [hcl] at hnone; cases hnone
          · exact (ih3 ⟨ms, hms⟩ p).mpr ⟨hmem, hnone⟩
    | none =>
      cases hf : fetch config.project with
      | error e =>
        rw [DiscoverTargetsAux_cons_fetchFail fetch config rest cache e hcl hf]
        refine ⟨?_, ?_, ?_⟩
        · intro p hp
          simp at hp
          subst hp
          exact hcl
        · simp
        · rintro ⟨ts, hok⟩
          simp at hok
      | ok v =>
        rw [DiscoverTargetsAux_cons_miss fetch config rest cache v hcl hf]
        obtain ⟨ih1, ih2, ih3⟩ := ih ((config.project, v) :: cache)
        have hsplit := discoverWithInstances_snd config v
          (DiscoverTargetsAux fetch rest ((config.project, v) :: cache)) [config.project]
        refine ⟨?_, ?_, ?_⟩
        · intro p hp
          rcases hsplit with hs | hs
          · rw [hs] at hp
            simp at hp
            subst hp
            exact hcl
          · rw [hs] at hp
            rcases List.mem_append.mp hp with hp | hp
            · simp at hp
              subst hp
              exact hcl
            · exact (lookup_cons_iff.mp (ih1 p hp)).2
        · rcases hsplit with hs | hs
          · rw [hs]; simp
          · rw [hs]
            simp only [List.singleton_append, List.nodup_cons]
            refine ⟨?_, ih2⟩
            intro hmem
            have := ih1 config.project hmem
            rw [lookup_cons_self] at this
            cases this
        · rintro ⟨ts, hok⟩ p
          obtain ⟨hsnd, ms, hms⟩ := discoverWithInstances_ok config v
            (DiscoverTargetsAux fetch rest ((config.project, v) :: cache))
            [config.project] ts hok
          rw [hsnd]
          simp only [List.singleton_append, List.map_cons, List.mem_cons]
          constructor
          · intro hp
            rcases hp with rfl | hp
            · exact ⟨Or.inl rfl, hcl⟩
            · have := (ih3 ⟨ms, hms⟩ p).mp hp
              exact ⟨Or.inr this.1, (lookup_cons_iff.mp this.2).2⟩
          · rintro ⟨hmem, hnone⟩
            by_cases hp : p = config.project
            · exact Or.inl hp
            · rcases hmem with rfl | hmem
              · exact absurd rfl hp
              · refine Or.inr ((ih3 ⟨ms, hms⟩ p).mpr ⟨hmem, ?_⟩)
                exact lookup_cons_iff.mpr ⟨hp, hnone⟩

/-- C6: `tagsMatch searchTags instanceTags` is true iff every search tag
occurs (case-sensitive, exact match) in the instance tags; the match is
monotone, so enlarging the search-tag list can only shrink the set of
matching instances. -/
theorem tagsMatch_subset_iff (searchTags instanceTags searchTags2 : List String) :
    (tagsMatch searchTags instanceTags = true ↔ ∀ s ∈ searchTags, s ∈ instanceTags) ∧
    ((∀ s ∈ searchTags, s ∈ searchTags2) → tagsMatch searchTags2 instanceTags = true →
      tagsMatch searchTags instanceTags = true) := by
  have hiff : ∀ (l : List String), tagsMatch l instanceTags = true ↔ ∀ s ∈ l, s ∈ instanceTags := by
    intro l
    simp only [tagsMatch, List.all_eq_true, List.any_eq_true, beq_iff_eq]
    constructor
    · intro h s hs
      obtain ⟨it, hit, rfl⟩ := h s hs
      exact hit
    · intro h s hs
      exact ⟨s, h s hs, rfl⟩
  refine ⟨hiff searchTags, ?_⟩
  intro hsub h2
  exact (hiff searchTags).mpr fun s hs => (hiff searchTags2).mp h2 s (hsub s hs)

/-- C6 witness: a concrete monotone instance of the subset test. -/
theorem tagsMatch_subset_iff_witness : tagsMatch ["a"] ["b", "a", "c"] = true :=
  (tagsMatch_subset_iff ["a"] ["b", "a", "c"] ["c", "a"]).2 (by decide) (by decide)

/-- C9: `findInstanceIP` fails exactly when the interface list is empty
or all-nil, and a returned IP is the `NetworkIP` of the first non-nil
entry. -/
theorem findInstanceIP_first_nonnull (inst : Instance) :
    ((∃ e, findInstanceIP inst = .error e) ↔ ∀ x ∈ inst.networkInterfaces, x = none) ∧
    (∀ ip, findInstanceIP inst = .ok ip →
      ∃ pre iface post, inst.networkInterfaces = pre ++ some iface :: post ∧
        (∀ x ∈ pre, x = none) ∧ ip = iface.networkIP) ∧
    (∀ pre iface post, inst.networkInterfaces = pre ++ some iface :: post →
      (∀ x ∈ pre, x = none) → findInstanceIP inst = .ok iface.networkIP) := by
  refine ⟨findInstanceIPAux_error_iff _, ?_, ?_⟩
  · intro ip h
    exact findInstanceIPAux_ok_first _ ip h
  · intro pre iface post hsplit hpre
    unfold findInstanceIP
    rw [hsplit]
    exact findInstanceIPAux_first_ok pre iface post hpre

/-- C9 witness: the first non-nil entry wins, later entries are ignored. -/
theorem findInstanceIP_first_nonnull_witness :
    findInstanceIP ⟨"i", "z", "m", [], [none, some ⟨"10.0.0.3"⟩, some ⟨"10.0.0.4"⟩]⟩ =
      .ok "10.0.0.3" :=
  (findInstanceIP_first_nonnull _).2.2 [none] ⟨"10.0.0.3"⟩ [some ⟨"10.0.0.4"⟩] rfl
    (by decide)

/-- C10: every target produced by `InstanceToTargets` has exactly one
endpoint, so the index 0 taken by `discoveryTargets.Less` is in bounds on
discovered sets; a target with an empty endpoint list leaves that index
out of bounds. -/
theorem InstanceToTargets_singleton_endpoints (inst : Instance) (config : SearchConfig)
    (ts : List DiscoveryTarget) (h : InstanceToTargets inst config = .ok ts) :
    (∀ t ∈ ts, t.targets.length = 1 ∧ lessIndexInBounds t) ∧
    ¬ lessIndexInBounds { targets := [], labels := [] } := by
  constructor
  · intro t ht
    cases hip : findInstanceIP inst with
    | error e => simp [InstanceToTargets, hip] at h
    | ok ip =>
      simp only [InstanceToTargets, hip, Except.ok.injEq] at h
      subst h
      obtain ⟨port, _, rfl⟩ := List.mem_map.mp ht
      exact ⟨rfl, by simp [lessIndexInBounds]⟩
  · simp [lessIndexInBounds]

/-- C10 witness: a concrete discovered target carries exactly one
endpoint and the comparator index is in bounds for it. -/
theorem InstanceToTargets_singleton_endpoints_witness :
    ({ targets := ["1.2.3.4:8080"],
       labels := [("job", "j"), ("__meta_gce_instance_tags", ",t,"),
         ("__meta_gce_instance_zone", "z"), ("__meta_gce_instance_type", "m"),
         ("__meta_gce_instance_project", "p"), ("__meta_gce_instance_name", "i")] } :
       DiscoveryTarget).targets.length = 1 ∧
    lessIndexInBounds
      { targets := ["1.2.3.4:8080"],
        labels := [("job", "j"), ("__meta_gce_instance_tags", ",t,"),
          ("__meta_gce_instance_zone", "z"), ("__meta_gce_instance_type", "m"),
          ("__meta_gce_instance_project", "p"), ("__meta_gce_instance_name", "i")] } :=
  (InstanceToTargets_singleton_endpoints ⟨"i", "z", "m", ["t"], [some ⟨"1.2.3.4"⟩]⟩
    ⟨"j", ["t"], "p", [8080, 9090]⟩ _ rfl).1
    { targets := ["1.2.3.4:8080"],
      labels := [("job", "j"), ("__meta_gce_instance_tags", ",t,"),
        ("__meta_gce_instance_zone", "z"), ("__meta_gce_instance_type", "m"),
        ("__meta_gce_instance_project", "p"), ("__meta_gce_instance_name", "i")] }
    (by decide)

/-- C5 counterexample: for an instance with tag `FOO-BAR` the produced
label set carries the raw tag list `,FOO-BAR,`; the formatted spelling
(`formatTag`, lower-case with `_`) appears nowhere, so the tag-derived
label is not lower-cased and hyphens are not replaced. -/
theorem InstanceToTargets_formatTag_cex :
    InstanceToTargets ⟨"i", "z", "m", ["FOO-BAR"], [some ⟨"1.2.3.4"⟩]⟩
        ⟨"j", ["FOO-BAR"], "p", [8080]⟩ =
      .ok [{ targets := ["1.2.3.4:8080"],
             labels := [("job", "j"), ("__meta_gce_instance_tags", ",FOO-BAR,"),
               ("__meta_gce_instance_zone", "z"), ("__meta_gce_instance_type", "m"),
               ("__meta_gce_instance_project", "p"), ("__meta_gce_instance_name", "i")] }] ∧
    formatTag "FOO-BAR" = "foo_bar" ∧
    "," ++ formatTag "FOO-BAR" ++ "," ≠ ",FOO-BAR," :=
  ⟨rfl, rfl, by decide⟩

/-- C5 amended: every produced target carries the label
`__meta_gce_instance_tags` whose value is the comma-joined raw tag list
wrapped in commas; the tags are not passed through `formatTag` (which is
defined but unused in `main.go`). -/
theorem InstanceToTargets_raw_tags_label (inst : Instance) (config : SearchConfig)
    (ts : List DiscoveryTarget) (h : InstanceToTargets inst config = .ok ts) :
    ∀ t ∈ ts, ("__meta_gce_instance_tags", "," ++ joinComma inst.tags ++ ",") ∈ t.labels := by
  intro t ht
  cases hip : findInstanceIP inst with
  | error e => simp [InstanceToTargets, hip] at h
  | ok ip =>
    simp only [InstanceToTargets, hip, Except.ok.injEq] at h
    subst h
    obtain ⟨port, _, rfl⟩ := List.mem_map.mp ht
    simp

/-- C5 witness: the raw-tag label of a concrete instance is present in
the label list of the produced target. -/
theorem InstanceToTargets_raw_tags_label_witness :
    ("__meta_gce_instance_tags", ",FOO-BAR,") ∈
      [("job", "j"), ("__meta_gce_instance_tags", ",FOO-BAR,"),
        ("__meta_gce_instance_zone", "z"), ("__meta_gce_instance_type", "m"),
        ("__meta_gce_instance_project", "p"), ("__meta_gce_instance_name", "i")] :=
  InstanceToTargets_raw_tags_label ⟨"i", "z", "m", ["FOO-BAR"], [some ⟨"1.2.3.4"⟩]⟩
    ⟨"j", ["FOO-BAR"], "p", [8080]⟩ _ rfl
    { targets := ["1.2.3.4:8080"],
      labels := [("job", "j"), ("__meta_gce_instance_tags", ",FOO-BAR,"),
        ("__meta_gce_instance_zone", "z"), ("__meta_gce_instance_type", "m"),
        ("__meta_gce_instance_project", "p"), ("__meta_gce_instance_name", "i")] }
    (by decide)

/-- C2 counterexample: one matching instance with an empty interface list
makes `DiscoverTargets` return an error for the whole cycle, although the
other matching instance converts fine — the per-instance mapping failure
is not skipped. -/
theorem DiscoverTargets_mapping_cex :
    DiscoverTargets
        (fun _ => Except.ok [some ⟨"bad", "z", "m", ["t"], []⟩,
          some ⟨"good", "z", "m", ["t"], [some ⟨"1.2.3.4"⟩]⟩])
        [⟨"j", ["t"], "p", [8080]⟩] =
      .error ("Failed to convert instance to a discovery target: " ++
        "Could not find ip for instance: No non nil interfaces found") ∧
    InstanceToTargets ⟨"good", "z", "m", ["t"], [some ⟨"1.2.3.4"⟩]⟩ ⟨"j", ["t"], "p", [8080]⟩ =
      .ok [{ targets := ["1.2.3.4:8080"],
             labels := [("job", "j"), ("__meta_gce_instance_tags", ",t,"),
               ("__meta_gce_instance_zone", "z"), ("__meta_gce_instance_type", "m"),
               ("__meta_gce_instance_project", "p"), ("__meta_gce_instance_name", "good")] }] :=
  ⟨rfl, rfl⟩

/-- C2 amended: an instance whose interface list is empty or all-nil and
which matches the first rule makes `DiscoverTargets` abort the whole
cycle with an error; the mapping failure is propagated, not skipped. -/
theorem DiscoverTargets_aborts_on_mapping_failure
    (fetch : String → Except String (List (Option Instance)))
    (cfg : SearchConfig) (rest : List SearchConfig) (insts : List (Option Instance))
    (hfetch : fetch cfg.project = .ok insts)
    (i : Instance) (hmem : i ∈ DiscoverComputeByTags insts cfg.tags)
    (hbad : ∀ x ∈ i.networkInterfaces, x = none) :
    ∃ e, DiscoverTargets fetch (cfg :: rest) = .error e := by
  have hIP : ∃ e, findInstanceIP i = .error e := (findInstanceIPAux_error_iff _).mpr hbad
  have hconv : ∃ e, InstanceToTargets i cfg = .error e := by
    obtain ⟨e, he⟩ := hIP
    exact ⟨"Could not find ip for instance: " ++ e, by simp [InstanceToTargets, he]⟩
  obtain ⟨e2, he2⟩ := instancesToTargets_error_of_mem cfg _ i hmem hconv
  unfold DiscoverTargets
  rw [DiscoverTargetsAux_cons_miss fetch cfg rest [] insts rfl hfetch]
  unfold discoverWithInstances
  rw [he2]
  exact ⟨e2, rfl⟩

/-- C2 witness: a concrete aborted cycle. -/
theorem DiscoverTargets_aborts_on_mapping_failure_witness :
    ∃ e, DiscoverTargets (fun _ => Except.ok [some ⟨"bad", "z", "m", ["t"], []⟩])
      [⟨"j", ["t"], "p", [8080]⟩] = .error e :=
  DiscoverTargets_aborts_on_mapping_failure _ _ [] _ rfl ⟨"bad", "z", "m", ["t"], []⟩
    (by decide) (by decide)

/-- C1 counterexample: reordering the endpoint list inside a single
target is reported as a difference — the differ never sorts the
per-target endpoint lists, so it is not invariant under permutations of
them. -/
theorem targetsDifferent_endpoint_perm_cex :
    targetsDifferent [⟨["a", "b"], []⟩] [⟨["b", "a"], []⟩] = true := by decide

/-- C1 amended: the differ reports no difference between a set and itself,
and none between a set and a permutation of its targets provided the
first endpoints of the targets are pairwise distinct (the comparator
compares only `Targets[0]`, with no tie-break, and endpoint lists are
never sorted). -/
theorem targetsDifferent_perm_invariant (X X2 : List DiscoveryTarget)
    (hkeys : (X.map targetKey).Nodup) (hperm : X.Perm X2) :
    targetsDifferent X X = false ∧ targetsDifferent X X2 = false := by
  have hsorted1 : (sortTargets X).Sorted targetLe := List.sorted_insertionSort targetLe X
  have hsorted2 : (sortTargets X2).Sorted targetLe := List.sorted_insertionSort targetLe X2
  have hp : (sortTargets X).Perm (sortTargets X2) :=
    ((List.perm_insertionSort targetLe X).trans hperm).trans
      (List.perm_insertionSort targetLe X2).symm
  have hnd : ((sortTargets X).map targetKey).Nodup :=
    (((List.perm_insertionSort targetLe X).map targetKey).nodup_iff).mpr hkeys
  have heq : sortTargets X = sortTargets X2 :=
    sorted_perm_eq_of_nodup_keys _ _ hp hsorted1 hsorted2 hnd
  constructor
  · simp [targetsDifferent]
  · simp [targetsDifferent, heq]

/-- C1 witness: swapping two targets with distinct first endpoints is not
reported as a difference. -/
theorem targetsDifferent_perm_invariant_witness :
    targetsDifferent [⟨["b:1"], [("job", "x")]⟩, ⟨["a:1"], []⟩]
      [⟨["a:1"], []⟩, ⟨["b:1"], [("job", "x")]⟩] = false :=
  (targetsDifferent_perm_invariant [⟨["b:1"], [("job", "x")]⟩, ⟨["a:1"], []⟩]
    [⟨["a:1"], []⟩, ⟨["b:1"], [("job", "x")]⟩] (by decide) (by decide)).2

/-- C3: after a successful discovery, a forced cycle always invokes the
write; an unforced cycle invokes it exactly when `targetsDifferent`
reports a change against the last written set; and a successful write
records the new set as the last written one and the cycle succeeds. -/
theorem loop_write_policy (force : Bool) (ts : List DiscoveryTarget)
    (wo : WriteOutcome) (st : LoopState) :
    (force = true → (loop force (.ok ts) wo st).2.2 = true) ∧
    (force = false →
      (loop force (.ok ts) wo st).2.2 = targetsDifferent ts st.currentTargets) ∧
    (wo = WriteOutcome.ok → (loop force (.ok ts) wo st).2.2 = true →
      (loop force (.ok ts) wo st).1.currentTargets = ts ∧
        (loop force (.ok ts) wo st).2.1 = none) := by
  cases force <;> cases wo <;>
    cases htd : targetsDifferent ts st.currentTargets <;>
      simp [loop, WriteTargets, htd]

/-- C3 witness: a forced cycle writes even though the discovered set is
identical to the last written one. -/
theorem loop_write_policy_witness :
    (loop true (Except.ok []) WriteOutcome.ok { currentTargets := [], file := none }).2.2 =
      true :=
  (loop_write_policy true [] WriteOutcome.ok { currentTargets := [], file := none }).1 rfl

/-- C4 counterexample: when the flush fails after `os.Create` truncated
the output file, the previous contents (`"previous"`) are destroyed — the
reader can observe a truncated or partially written file, contradicting
the claim that the file is unchanged on a write error. -/
theorem loop_write_failure_cex :
    (loop true (Except.ok [⟨["b:1"], []⟩]) (WriteOutcome.flushFail 0)
        { currentTargets := [], file := some "previous" }).1.file = some "" ∧
    some "" ≠ some "previous" := by
  exact ⟨rfl, by decide⟩

/-- C4 amended: on a write failure the in-memory last-written set is not
updated (so the write is retried next cycle) and the failing cycle
returns an error; but only a failure of `os.Create` leaves the file
contents unchanged — a failure after creation leaves a truncated or
partial file, since the file is created (truncated) in place with no
temp-and-rename step. -/
theorem loop_write_failure_preserves (force : Bool) (ts : List DiscoveryTarget)
    (wo : WriteOutcome) (st : LoopState) (h : wo ≠ WriteOutcome.ok) :
    (loop force (.ok ts) wo st).1.currentTargets = st.currentTargets ∧
    ((loop force (.ok ts) wo st).2.2 = true → (loop force (.ok ts) wo st).2.1 ≠ none) ∧
    (loop force (.ok ts) WriteOutcome.createFail st).1.file = st.file := by
  cases wo with
  | ok => exact absurd rfl h
  | createFail =>
    cases force <;> cases htd : targetsDifferent ts st.currentTargets <;>
      simp [loop, WriteTargets, htd]
  | flushFail k =>
    cases force <;> cases htd : targetsDifferent ts st.currentTargets <;>
      simp [loop, WriteTargets, htd]

/-- C4 witness: a concrete failing flush leaves the last-written set
untouched. -/
theorem loop_write_failure_preserves_witness :
    (loop true (Except.ok [⟨["b:1"], []⟩]) (WriteOutcome.flushFail 0)
      { currentTargets := [], file := some "previous" }).1.currentTargets = [] :=
  (loop_write_failure_preserves true [⟨["b:1"], []⟩] (WriteOutcome.flushFail 0)
    { currentTargets := [], file := some "previous" } (by decide)).1

/-- C8 counterexample: a cycle whose discovery succeeds but whose write
fails increments the failure counter — so the failure counter does not
increment only on fetch/map failures. -/
theorem syncResult_write_failure_cex :
    syncResultInc (loop true (Except.ok [⟨["b:1"], []⟩]) WriteOutcome.createFail
      { currentTargets := [], file := none }).2.1 (0, 0) = (0, 1) := by
  rfl

/-- C8 amended: the success counter increments exactly when the cycle
returns no error — including a skip-due-to-no-change — and the failure
counter increments exactly when the cycle returns an error, which happens
on a discovery failure or on a write failure, never on a skip. -/
theorem syncResult_policy (force : Bool) (disc : Except String (List DiscoveryTarget))
    (wo : WriteOutcome) (st : LoopState) (c : Nat × Nat) :
    ((loop force disc wo st).2.1 = none →
      syncResultInc (loop force disc wo st).2.1 c = (c.1 + 1, c.2)) ∧
    ((loop force disc wo st).2.1 ≠ none →
      syncResultInc (loop force disc wo st).2.1 c = (c.1, c.2 + 1)) ∧
    (∀ ts, disc = .ok ts → force = false → targetsDifferent ts st.currentTargets = false →
      (loop force disc wo st).2.1 = none) ∧
    (∀ ts, disc = .ok ts → wo = WriteOutcome.ok → (loop force disc wo st).2.1 = none) := by
  refine ⟨?_, ?_, ?_, ?_⟩
  · intro h; rw [h]; rfl
  · intro h
    cases herr : (loop force disc wo st).2.1 with
    | none => exact absurd herr h
    | some e => rfl
  · rintro ts rfl rfl htd
    simp [loop, htd]
  · rintro ts rfl rfl
    cases force <;> cases htd : targetsDifferent ts st.currentTargets <;>
      simp [loop, WriteTargets, htd]

/-- C8 witness: a skip-due-to-no-change counts as a success. -/
theorem syncResult_policy_witness :
    (loop false (Except.ok []) WriteOutcome.ok { currentTargets := [], file := none }).2.1 =
        none ∧
    syncResultInc (loop false (Except.ok []) WriteOutcome.ok
      { currentTargets := [], file := none }).2.1 (3, 4) = (4, 4) := by
  have hp := syncResult_policy false (Except.ok []) WriteOutcome.ok
    { currentTargets := [], file := none } (3, 4)
  have hnone := hp.2.2.2 [] rfl rfl
  exact ⟨hnone, hp.1 hnone⟩

/-- C7: within one invocation of `DiscoverTargets` the inventory fetch is
never invoked twice for the same project (the fetch trace has no
duplicates), the result always coincides with the cache-free version in
which every rule is evaluated directly against the fetched instance list
of its own project, and in a successful run the trace holds exactly the
distinct projects named in the rule list. -/
theorem DiscoverTargets_memoizes
    (fetch : String → Except String (List (Option Instance)))
    (configs : List SearchConfig) :
    (DiscoverTargetsTrace fetch configs).Nodup ∧
    DiscoverTargets fetch configs = DiscoverTargetsNoCache fetch configs ∧
    ((∃ ts, DiscoverTargets fetch configs = .ok ts) →
      ∀ p, p ∈ DiscoverTargetsTrace fetch configs ↔
        p ∈ configs.map SearchConfig.project) := by
  obtain ⟨h1, h2, h3⟩ := DiscoverTargetsAux_trace fetch configs []
  refine ⟨h2, DiscoverTargetsAux_eq_noCache fetch configs []
    (by intro p v hpv; cases hpv), ?_⟩
  intro h p
  have := h3 h p
  simpa using this

/-- C7 witness: with two rules sharing project `p`, the fetch trace
contains `p` (and, the trace being duplicate-free, the fetch ran exactly
once for it). -/
theorem DiscoverTargets_memoizes_witness :
    "p" ∈ DiscoverTargetsTrace
        (fun _ => Except.ok [some ⟨"good", "z", "m", ["t"], [some ⟨"1.2.3.4"⟩]⟩])
        [⟨"j1", ["t"], "p", [8080]⟩, ⟨"j2", ["t"], "p", [9090]⟩] ↔
      "p" ∈ [⟨"j1", ["t"], "p", [8080]⟩, ⟨"j2", ["t"], "p", [9090]⟩].map
        SearchConfig.project :=
  (DiscoverTargets_memoizes
    (fun _ => Except.ok [some ⟨"good", "z", "m", ["t"], [some ⟨"1.2.3.4"⟩]⟩])
    [⟨"j1", ["t"], "p", [8080]⟩, ⟨"j2", ["t"], "p", [9090]⟩]).2.2 ⟨_, rfl⟩ "p"

end GceSd
